import Mathlib

set_option maxHeartbeats 1000000
set_option maxRecDepth 10000

/-!
Shallow embedding of the embedding pipeline of the intel-fusion demo:

* `EmbeddingsService` (string normalisation, 32-bit hash, content-addressed
  cache, deterministic mock generator, single and batch generation paths),
* `VectorProcessingService` (chunked backfill with per-chunk error isolation
  and its write-back of vectors to the incident store),
* the similarity query engine of `IncidentsService` (`semanticSearch` and
  `findSimilarIncidents`).

Strings are modelled as Lean `String`; JavaScript `charCodeAt`/`substring`
count UTF-16 code units, which the model reproduces via an explicit UTF-16
encoding (`utf16Units`); for texts of BMP characters one code unit is one
character. Floating-point arithmetic of the mock generator is idealised as
real arithmetic (`Real.sin`, `Real.sqrt`, division by zero yielding zero
where JavaScript yields NaN — in both semantics a zero-magnitude vector is
not normalised). The remote provider and the persistence layer are out of
the repository; they appear as abstract parameters (`provider`, `embed`)
and an explicit store state.
-/

/-- Characters removed by the JavaScript `String.prototype.trim` operation
(the ECMAScript WhiteSpace and LineTerminator sets). -/
def jsWhitespace (c : Char) : Bool :=
  ([9, 10, 11, 12, 13, 32, 160, 0x1680, 0x2028, 0x2029,
    0x202F, 0x205F, 0x3000, 0xFEFF] : List Nat).contains c.toNat
  || (0x2000 ≤ c.toNat && c.toNat ≤ 0x200A)

/-- Model of JavaScript `text.trim()`: strip leading and trailing whitespace. -/
def jsTrim (s : String) : String :=
  String.mk (((s.data.dropWhile jsWhitespace).reverse.dropWhile jsWhitespace).reverse)

/-- ASCII lowering of a single character (the fragment of JavaScript
`toLowerCase` exercised by the pipeline's inputs). -/
def jsToLowerChar (c : Char) : Char :=
  if 65 ≤ c.toNat ∧ c.toNat ≤ 90 then Char.ofNat (c.toNat + 32) else c

/-- Model of JavaScript `text.toLowerCase()` on ASCII text. -/
def jsToLower (s : String) : String :=
  String.mk (s.data.map jsToLowerChar)

/-- UTF-16 code units of one character (surrogate pair above the BMP),
matching what JavaScript `charCodeAt` walks over. -/
def utf16Units (c : Char) : List Nat :=
  if c.toNat < 0x10000 then [c.toNat]
  else [0xD800 + (c.toNat - 0x10000) / 0x400, 0xDC00 + (c.toNat - 0x10000) % 0x400]

/-- Sequence of UTF-16 code units of a string (`str.charCodeAt(i)` for each i). -/
def charCodes (s : String) : List Nat :=
  s.data.flatMap utf16Units

/-- JavaScript `ToInt32`: wrap an integer into the range `[-2^31, 2^31)`. -/
def toInt32 (n : Int) : Int :=
  (n + 2 ^ 31) % 2 ^ 32 - 2 ^ 31

/-- One iteration of `simpleHash`: `hash = ((hash << 5) - hash) + char` followed
by `hash = hash & hash` (a ToInt32 conversion).  `hash << 5` is itself a 32-bit
shift, hence the inner `toInt32`. -/
def hashStep (h : Int) (c : Nat) : Int :=
  toInt32 (toInt32 (h * 32) - h + (c : Int))

/-- `EmbeddingsService.simpleHash`: fold `hashStep` over the UTF-16 code units
starting from 0, then `Math.abs`. -/
def simpleHash (s : String) : Int :=
  |(charCodes s).foldl hashStep 0|

/-- Model of JavaScript `text.substring(0, n)` (count in UTF-16 units; equal to
the character count on BMP text). -/
def jsTake (s : String) (n : Nat) : String :=
  String.mk (s.data.take n)

/-- `EmbeddingsService.createCacheKey`: the key `emb_${simpleHash(text.toLowerCase().trim())}`
is determined by the hash of the lowercased, trimmed text; the model uses the
hash itself as the key. -/
def createCacheKey (t : String) : Int :=
  simpleHash (jsTrim (jsToLower t))

/-- Sum of squares of the entries of a vector, as the source computes it:
`reduce((sum, val) => sum + val * val, 0)`. -/
def sumSq (l : List ℝ) : ℝ :=
  l.foldl (fun s v => s + v * v) 0

/-- Body of `EmbeddingsService.generateMockEmbedding` after the hash is taken:
384 components `sin(hash * (i + 1)) * 0.5`, then division of every component
by the vector's magnitude `sqrt(Σ v²)`. -/
noncomputable def mockOfHash (h : Int) : List ℝ :=
  let embedding := (List.range 384).map (fun i : ℕ => Real.sin ((h : ℝ) * ((i : ℝ) + 1)) * 0.5)
  let magnitude := Real.sqrt (sumSq embedding)
  embedding.map (fun val => val / magnitude)

/-- `EmbeddingsService.generateMockEmbedding`: the deterministic fallback
generator, a function of `simpleHash` of the text. -/
noncomputable def generateMockEmbedding (text : String) : List ℝ :=
  mockOfHash (simpleHash text)

/-- Mutable state of one `EmbeddingsService` instance: the in-memory
content-addressed cache plus instrumentation counters for how many times the
remote provider (per API request) and the fallback generator (per text) were
invoked. -/
structure EmbState (V : Type) where
  cache : List (Int × V)
  providerCalls : Nat
  fallbackCalls : Nat
deriving DecidableEq

/-- State of a freshly constructed `EmbeddingsService`: empty cache, no calls. -/
def emptyEmbState (V : Type) : EmbState V :=
  ⟨[], 0, 0⟩

/-- Lookup in the cache map (`Map.get` / `Map.has`). -/
def lookupCache {V : Type} (cache : List (Int × V)) (k : Int) : Option V :=
  (cache.find? (fun p => p.1 == k)).map (fun p => p.2)

/-- `EmbeddingsService.generateEmbedding`.  `provider` is the remote API when
configured (`some`), abstract and assumed to answer; `mock` is the fallback
generator.  Empty or whitespace-only text returns `null`; a cache hit returns
the cached vector; the provider path truncates to 8191 units and caches the
result; the fallback path uses the untruncated text and does not cache. -/
def generateEmbedding {V : Type} (provider : Option (String → V)) (mock : String → V)
    (st : EmbState V) (text : String) : EmbState V × Option V :=
  if jsTrim text = "" then (st, none)
  else
    match lookupCache st.cache (createCacheKey text) with
    | some v => (st, some v)
    | none =>
      match provider with
      | some p =>
        let embedding := p (jsTake text 8191)
        ({ st with
            cache := (createCacheKey text, embedding) :: st.cache,
            providerCalls := st.providerCalls + 1 },
         some embedding)
      | none =>
        ({ st with fallbackCalls := st.fallbackCalls + 1 }, some (mock text))

/-- The filter `text && text.trim().length > 0` applied to batch inputs. -/
def validTextB (t : String) : Bool :=
  !(jsTrim t == "")

/-- Vector produced for one uncached text inside the batch path: both the
provider and the fallback receive the text truncated to 8191 units
(`uncachedTexts.push(text.substring(0, 8191))`). -/
def produceOne {V : Type} (provider : Option (String → V)) (mock : String → V)
    (t : String) : V :=
  match provider with
  | some p => p (jsTake t 8191)
  | none => mock (jsTake t 8191)

/-- `EmbeddingsService.generateBatchEmbeddings`: filter out invalid texts,
serve cache hits against the entry state, produce vectors for the misses (in
provider chunks of at most 100, or via the fallback), and return one vector
per valid text in input order.  Only the provider path writes the cache; the
cache key uses the full text while production uses the truncated text. -/
def generateBatchEmbeddings {V : Type} (provider : Option (String → V)) (mock : String → V)
    (st : EmbState V) (texts : List String) : EmbState V × List V :=
  let validTexts := texts.filter validTextB
  if validTexts = [] then (st, [])
  else
    let uncached := validTexts.filter (fun t => (lookupCache st.cache (createCacheKey t)).isNone)
    let results := validTexts.map (fun t =>
      match lookupCache st.cache (createCacheKey t) with
      | some v => v
      | none => produceOne provider mock t)
    match provider with
    | some p =>
      ({ st with
          cache := uncached.foldl (fun c t => (createCacheKey t, p (jsTake t 8191)) :: c) st.cache,
          providerCalls := st.providerCalls + (uncached.length + 99) / 100 },
       results)
    | none =>
      ({ st with fallbackCalls := st.fallbackCalls + uncached.length }, results)

/-- Partition of a record list into the fixed-size sub-batches walked by
`processBatchEmbeddings` (`BATCH_SIZE = 50`; `incidents.slice(i, i + 50)`). -/
def chunks50 {α : Type} (l : List α) : List (List α) :=
  match l with
  | [] => []
  | a :: rest => ((a :: rest).take 50) :: chunks50 ((a :: rest).drop 50)
termination_by l.length
decreasing_by
  simp only [List.length_drop, List.length_cons]
  omega

/-- Counter behaviour of `VectorProcessingService.processBatchEmbeddings`:
each sub-batch of 50 either succeeds (`processed += batch.length`) or throws
inside the try/catch (`errors += batch.length`), modelled by the oracle
`throws` saying which sub-batches fail during provider call or persistence.
The result is the returned `{processed, errors}` pair. -/
def processBatchEmbeddings {α : Type} (throws : List α → Bool) (incidents : List α) :
    Nat × Nat :=
  (chunks50 incidents).foldl
    (fun counts batch =>
      if throws batch then (counts.1, counts.2 + batch.length)
      else (counts.1 + batch.length, counts.2))
    (0, 0)

/-- Row of the incident table as seen by the vector backfill: id, the two
embeddable text columns, the two nullable vector columns.  Absent (SQL NULL)
text is modelled as the empty string, which is equally falsy in the source's
truthiness tests. -/
structure Incident (V : Type) where
  id : String
  title : String
  description : String
  title_vector : Option V
  description_vector : Option V
deriving DecidableEq

/-- Predicate of the backfill query
`title_vector IS NULL OR description_vector IS NULL`. -/
def needsEmbedding {V : Type} (inc : Incident V) : Bool :=
  inc.title_vector.isNone || inc.description_vector.isNone

/-- Output of `generateBatchEmbeddings` as invoked by the backfill run with an
unconfigured provider and an untouched cache (the fallback path caches
nothing, so the cache stays empty for the whole run): one vector per valid
text, produced from the truncated text. -/
def batchEmbedPure {V : Type} (embed : String → V) (texts : List String) : List V :=
  (texts.filter validTextB).map (fun t => embed (jsTake t 8191))

/-- `incidentRepository.update({ id }, { title_vector })`: set the title
vector of every row whose id matches. -/
def setTitleVector {V : Type} (id : String) (v : V) (store : List (Incident V)) :
    List (Incident V) :=
  store.map (fun r => if r.id = id then { r with title_vector := some v } else r)

/-- `incidentRepository.update({ id }, { description_vector })`. -/
def setDescriptionVector {V : Type} (id : String) (v : V) (store : List (Incident V)) :
    List (Incident V) :=
  store.map (fun r => if r.id = id then { r with description_vector := some v } else r)

/-- The `forEach((incident, index) => if (embeddings[index]) update(...))`
loops: walk the target list with its index, and apply the update whenever the
embeddings array has an entry at that index (a vector value is always truthy
in JavaScript; a missing index reads `undefined` and is skipped). -/
def applyUpdates {V : Type} (setter : String → V → List (Incident V) → List (Incident V))
    (targets : List (Incident V)) (embs : List V) (store : List (Incident V)) :
    List (Incident V) :=
  targets.enum.foldl
    (fun s p =>
      match embs[p.1]? with
      | some v => setter p.2.id v s
      | none => s)
    store

/-- `VectorProcessingService.processSingleBatch`: select the incidents of the
batch needing a title (resp. description) embedding, generate the batch
embeddings for their texts, and write each produced vector back by record id
at the corresponding index. -/
def processSingleBatch {V : Type} (embed : String → V) (batch : List (Incident V))
    (store : List (Incident V)) : List (Incident V) :=
  let needsTitle := batch.filter (fun inc => inc.title_vector.isNone && !(inc.title == ""))
  let needsDescription :=
    batch.filter (fun inc => inc.description_vector.isNone && !(inc.description == ""))
  let titleEmbeddings := batchEmbedPure embed (needsTitle.map (fun inc => inc.title))
  let descriptionEmbeddings :=
    batchEmbedPure embed (needsDescription.map (fun inc => inc.description))
  applyUpdates setDescriptionVector needsDescription descriptionEmbeddings
    (applyUpdates setTitleVector needsTitle titleEmbeddings store)

/-- Store effect of `processBatchEmbeddings` on a run where no sub-batch
throws: the sub-batches of 50 are processed in order, each one reading its
(snapshot) rows and updating the store. -/
def processBatchStore {V : Type} (embed : String → V) (incidents : List (Incident V))
    (store : List (Incident V)) : List (Incident V) :=
  (chunks50 incidents).foldl (fun s batch => processSingleBatch embed batch s) store

/-- `VectorProcessingService.processAllMissingEmbeddings` on a run where no
sub-batch throws: select the rows matching the missing-vector query, process
them, and report `processed` = their number (each successful sub-batch adds
its full length) with `errors = 0`. -/
def processAllMissingEmbeddings {V : Type} (embed : String → V)
    (store : List (Incident V)) : List (Incident V) × Nat :=
  let missing := store.filter needsEmbedding
  (processBatchStore embed missing store, missing.length)

/-- Row of the incident table as seen by the similarity query engine. -/
structure IncidentRow (V : Type) where
  id : String
  title_vector : Option V
  category : String
  datetime : Int
deriving DecidableEq

/-- `filters?.similarityThreshold || 0.8`: the default applies when the caller
passes nothing (and, `||` being a falsiness test, also when it passes 0). -/
def resolveThreshold {α : Type} [Zero α] [DecidableEq α] (t : Option α) (dflt : α) : α :=
  match t with
  | none => dflt
  | some x => if x = 0 then dflt else x

/-- Category predicate of `semanticSearch`: the `IN (:...categories)` clause
is added only when a non-empty category list is supplied. -/
def categoryOk (categories : Option (List String)) (cat : String) : Bool :=
  match categories with
  | some cats => if cats = [] then true else cats.contains cat
  | none => true

/-- Comparison used to model `ORDER BY (title_vector <=> query) ASC`. -/
def distLE {Row α : Type} [LinearOrder α] (a b : Row × α) : Bool :=
  decide (a.2 ≤ b.2)

/-- Candidate rows of `semanticSearch`'s `WHERE` clause: the rows with a
stored title vector whose distance to the query is strictly below the
threshold and which pass the category predicate and the (always-applied)
date window, each paired with its distance. -/
def searchCandidates {V α : Type} [LinearOrder α] (store : List (IncidentRow V))
    (dist : V → α) (threshold : α) (categories : Option (List String))
    (startDate endDate : Int) : List (IncidentRow V × α) :=
  store.filterMap (fun r =>
    match r.title_vector with
    | none => none
    | some v =>
      let d := dist v
      if d < threshold ∧ categoryOk categories r.category = true
          ∧ startDate ≤ r.datetime ∧ r.datetime ≤ endDate
      then some (r, d) else none)

/-- `IncidentsService.semanticSearch`: order the candidate rows ascending by
distance and truncate at the limit.  `dist` is the distance of a stored
vector to the query (the pgvector `<=>` cosine-distance operator, computed by
the external store), returned as the row's `similarity_score`. -/
def semanticSearch {V α : Type} [LinearOrder α] (store : List (IncidentRow V))
    (dist : V → α) (threshold : α) (lim : Nat) (categories : Option (List String))
    (startDate endDate : Int) : List (IncidentRow V × α) :=
  ((searchCandidates store dist threshold categories startDate endDate).mergeSort
    distLE).take lim

/-- Candidate rows of `findSimilarIncidents`'s ranking query: every row other
than the record itself that has a stored title vector, paired with its
distance to the record's vector. -/
def similarCandidates {V α : Type} (store : List (IncidentRow V))
    (dist : V → V → α) (incidentId : String) (qv : V) : List (IncidentRow V × α) :=
  store.filterMap (fun r =>
    if r.id = incidentId then none
    else r.title_vector.map (fun v => (r, dist qv v)))

/-- `IncidentsService.findSimilarIncidents`: read the record, and when it is
absent or has no stored title vector return the empty list (the source's
`return []`; the result is wrapped in `Except` so that the not-found outcome
the specification asks for is expressible).  Otherwise rank every other row
having a title vector by ascending distance to the record's vector, capped at
the limit (the source default is 10), with the record itself excluded. -/
def findSimilarIncidents {V α : Type} [LinearOrder α] (store : List (IncidentRow V))
    (dist : V → V → α) (incidentId : String) (lim : Nat) :
    Except String (List (IncidentRow V × α)) :=
  match store.find? (fun r => r.id == incidentId) with
  | none => Except.ok []
  | some incident =>
    match incident.title_vector with
    | none => Except.ok []
    | some qv =>
      Except.ok (((similarCandidates store dist incidentId qv).mergeSort distLE).take lim)

/-- Dot product of two stored vectors. -/
def dotProduct (a b : List ℝ) : ℝ :=
  (List.zipWith (fun x y => x * y) a b).sum

/-- Cosine distance `1 - cosine_similarity`, the semantics of the pgvector
`<=>` operator used by the similarity queries. -/
noncomputable def cosineDistance (a b : List ℝ) : ℝ :=
  1 - dotProduct a b / (Real.sqrt (sumSq a) * Real.sqrt (sumSq b))

/-! ### Sub-batch partition lemmas -/

theorem chunks50_nil {α : Type} : chunks50 ([] : List α) = [] := by
  simp [chunks50]

theorem chunks50_cons {α : Type} (a : α) (rest : List α) :
    chunks50 (a :: rest) = ((a :: rest).take 50) :: chunks50 ((a :: rest).drop 50) := by
  simp [chunks50]

theorem chunks50_sum_length_aux {α : Type} :
    ∀ (n : Nat) (l : List α), l.length ≤ n →
      ((chunks50 l).map List.length).sum = l.length := by
  intro n
  induction n with
  | zero =>
    intro l hl
    have hnil : l = [] := List.length_eq_zero.mp (Nat.le_zero.mp hl)
    subst hnil
    simp [chunks50_nil]
  | succ n ih =>
    intro l hl
    cases l with
    | nil => simp [chunks50_nil]
    | cons a rest =>
      rw [chunks50_cons]
      simp only [List.map_cons, List.sum_cons]
      rw [ih (List.drop 50 (a :: rest))
        (by simp only [List.length_drop, List.length_cons] at hl ⊢; omega)]
      simp only [List.length_take, List.length_drop, List.length_cons]
      omega

theorem chunks50_sum_length {α : Type} (l : List α) :
    ((chunks50 l).map List.length).sum = l.length :=
  chunks50_sum_length_aux l.length l le_rfl

theorem chunks50_join_aux {α : Type} :
    ∀ (n : Nat) (l : List α), l.length ≤ n → (chunks50 l).flatten = l := by
  intro n
  induction n with
  | zero =>
    intro l hl
    have hnil : l = [] := List.length_eq_zero.mp (Nat.le_zero.mp hl)
    subst hnil
    simp [chunks50_nil]
  | succ n ih =>
    intro l hl
    cases l with
    | nil => simp [chunks50_nil]
    | cons a rest =>
      rw [chunks50_cons]
      simp only [List.flatten_cons]
      rw [ih (List.drop 50 (a :: rest))
        (by simp only [List.length_drop, List.length_cons] at hl ⊢; omega)]
      exact List.take_append_drop 50 (a :: rest)

theorem chunks50_join {α : Type} (l : List α) : (chunks50 l).flatten = l :=
  chunks50_join_aux l.length l le_rfl

theorem processBatch_foldl_spec {α : Type} (throws : List α → Bool) (bs : List (List α))
    (p e : Nat) :
    bs.foldl
        (fun counts batch =>
          if throws batch then (counts.1, counts.2 + batch.length)
          else (counts.1 + batch.length, counts.2))
        (p, e)
      = (p + ((bs.filter (fun b => !throws b)).map List.length).sum,
         e + ((bs.filter throws).map List.length).sum) := by
  induction bs generalizing p e with
  | nil => simp
  | cons b bs ih =>
    cases hb : throws b with
    | false =>
      simp only [List.foldl_cons, hb, Bool.false_eq_true, if_false, ih,
        List.filter_cons, Bool.not_false, if_true]
      simp only [List.map_cons, List.sum_cons]
      rw [Nat.add_assoc]
    | true =>
      simp only [List.foldl_cons, hb, if_true, ih, List.filter_cons, Bool.not_true,
        Bool.false_eq_true, if_false]
      simp only [List.map_cons, List.sum_cons]
      rw [Nat.add_assoc]

theorem processBatchEmbeddings_spec {α : Type} (throws : List α → Bool) (incidents : List α) :
    processBatchEmbeddings throws incidents
      = ((((chunks50 incidents).filter (fun b => !throws b)).map List.length).sum,
         (((chunks50 incidents).filter throws).map List.length).sum) := by
  unfold processBatchEmbeddings
  rw [processBatch_foldl_spec]
  simp

theorem sum_map_filter_add {α : Type} (f : α → Nat) (p : α → Bool) (l : List α) :
    ((l.filter p).map f).sum + ((l.filter (fun b => !p b)).map f).sum = (l.map f).sum := by
  induction l with
  | nil => simp
  | cons a l ih =>
    cases h : p a <;> simp [List.filter_cons, h] <;> omega

/-- C1: for every record list and every pattern of sub-batch failures during
provider call or persistence, `processBatchEmbeddings` always returns a
`(processed, errors)` pair (the model is a total function: every exception is
caught inside the loop): each failing sub-batch of 50 contributes exactly its
record count to `errors`, and every non-failing sub-batch is still processed
and contributes its record count to `processed`. -/
theorem processBatchEmbeddings_isolates_failures {α : Type} (throws : List α → Bool)
    (incidents : List α) :
    processBatchEmbeddings throws incidents
      = ((((chunks50 incidents).filter (fun b => !throws b)).map List.length).sum,
         (((chunks50 incidents).filter throws).map List.length).sum) := by
  unfold processBatchEmbeddings
  rw [processBatch_foldl_spec]
  simp

/-- C10: for every input list and failure pattern, the counters returned by
`processBatchEmbeddings` satisfy `processed + errors = number of records`
(every record is attributed to exactly one counter), and the empty input
yields `{processed := 0, errors := 0}`. -/
theorem processBatchEmbeddings_counts_partition {α : Type} (throws : List α → Bool)
    (incidents : List α) :
    (processBatchEmbeddings throws incidents).1 + (processBatchEmbeddings throws incidents).2
        = incidents.length
      ∧ processBatchEmbeddings throws [] = (0, 0) := by
  constructor
  · rw [processBatchEmbeddings_spec]
    simp only
    rw [Nat.add_comm, sum_map_filter_add]
    exact chunks50_sum_length incidents
  · simp [processBatchEmbeddings, chunks50_nil]

/-! ### Deterministic fallback generator: dimension and normalisation -/

theorem sumSq_eq_sum_map (l : List ℝ) : sumSq l = (l.map (fun v => v * v)).sum := by
  have haux : ∀ (l : List ℝ) (a : ℝ),
      l.foldl (fun s v => s + v * v) a = a + (l.map (fun v => v * v)).sum := by
    intro l
    induction l with
    | nil => intro a; simp
    | cons x xs ih =>
      intro a
      simp only [List.foldl_cons, List.map_cons, List.sum_cons, ih]
      ring
  simpa [sumSq] using haux l 0

theorem sum_map_div (l : List ℝ) (f : ℝ → ℝ) (c : ℝ) :
    (l.map (fun x => f x / c)).sum = (l.map f).sum / c := by
  induction l with
  | nil => simp
  | cons x xs ih =>
    simp only [List.map_cons, List.sum_cons, ih]
    ring

theorem sin_int_ne_zero (m : Int) (hm : m ≠ 0) : Real.sin ((m : ℝ)) ≠ 0 := by
  intro h
  rcases Real.sin_eq_zero_iff.mp h with ⟨n, hn⟩
  have hn0 : n ≠ 0 := by
    rintro rfl
    simp only [Int.cast_zero, zero_mul] at hn
    exact hm (by exact_mod_cast hn.symm)
  apply irrational_pi
  refine ⟨(m : ℚ) / (n : ℚ), ?_⟩
  have hcast : (((m : ℚ) / (n : ℚ) : ℚ) : ℝ) = (m : ℝ) / (n : ℝ) := by
    push_cast
    ring
  rw [hcast]
  have hnR : (n : ℝ) ≠ 0 := Int.cast_ne_zero.mpr hn0
  rw [eq_comm, eq_div_iff hnR]
  linarith [hn]

theorem sumSq_normalised_eq_one (E : List ℝ) (x : ℝ) (hx : x ∈ E) (hx0 : x ≠ 0) :
    sumSq (E.map (fun val => val / Real.sqrt (sumSq E))) = 1 := by
  have hnonneg : ∀ y ∈ E.map (fun v => v * v), (0 : ℝ) ≤ y := by
    intro y hy
    rcases List.mem_map.mp hy with ⟨v, _, rfl⟩
    exact mul_self_nonneg v
  have hpos : 0 < sumSq E := by
    rw [sumSq_eq_sum_map]
    have hmem : x * x ∈ E.map (fun v => v * v) := List.mem_map_of_mem _ hx
    have hle := List.single_le_sum hnonneg (x * x) hmem
    have hxx : 0 < x * x := mul_self_pos.mpr hx0
    linarith
  rw [sumSq_eq_sum_map, List.map_map]
  have hfun : ((fun v => v * v) ∘ fun val => val / Real.sqrt (sumSq E))
      = fun val => (val * val) / (Real.sqrt (sumSq E) * Real.sqrt (sumSq E)) := by
    funext v
    simp only [Function.comp]
    rw [div_mul_div_comm]
  rw [hfun]
  rw [sum_map_div E (fun v => v * v)]
  rw [Real.mul_self_sqrt hpos.le]
  rw [← sumSq_eq_sum_map]
  exact div_self (ne_of_gt hpos)

theorem sumSq_mockOfHash_eq_one (h : Int) (hh : h ≠ 0) : sumSq (mockOfHash h) = 1 := by
  simp only [mockOfHash]
  apply sumSq_normalised_eq_one _ (Real.sin ((h : ℝ) * (((0 : ℕ) : ℝ) + 1)) * 0.5)
  · exact List.mem_map_of_mem _ (by simp)
  · have h01 : ((h : ℝ) * (((0 : ℕ) : ℝ) + 1)) = (h : ℝ) := by push_cast; ring
    rw [h01]
    exact mul_ne_zero (sin_int_ne_zero h hh) (by norm_num)

theorem sumSq_mockOfHash_zero : sumSq (mockOfHash 0) = 0 := by
  have hzsum : ∀ (l : List ℝ), (∀ x ∈ l, x = 0) → sumSq l = 0 := by
    intro l
    induction l with
    | nil => intro _; simp [sumSq]
    | cons x xs ih =>
      intro hx
      rw [sumSq_eq_sum_map] at ih ⊢
      simp only [List.map_cons, List.sum_cons]
      rw [hx x (by simp), ih (fun y hy => hx y (by simp [hy]))]
      ring
  simp only [mockOfHash]
  apply hzsum
  intro x hx
  rcases List.mem_map.mp hx with ⟨v, hv, rfl⟩
  rcases List.mem_map.mp hv with ⟨i, _, rfl⟩
  simp

/-- C4: the deterministic fallback generator is a pure function of its text —
two independent calls on the same text produce component-wise identical
vectors — and every vector it produces has exactly 384 components. -/
theorem generateMockEmbedding_deterministic_dim (t : String) :
    generateMockEmbedding t = generateMockEmbedding t
      ∧ (generateMockEmbedding t).length = 384 := by
  refine ⟨rfl, ?_⟩
  simp [generateMockEmbedding, mockOfHash]

/-- C5 (amended): for every text whose 32-bit hash is nonzero, the
fallback-generated vector has L2 norm exactly 1 in idealised real arithmetic,
hence within 1e-6 of 1.0.  The hash-zero texts are excluded: for them the
magnitude is zero and the division does not normalise (see the
counterexample). -/
theorem generateMockEmbedding_norm_one (t : String) (h : simpleHash t ≠ 0) :
    |Real.sqrt (sumSq (generateMockEmbedding t)) - 1| ≤ 1 / 1000000 := by
  rw [generateMockEmbedding, sumSq_mockOfHash_eq_one (simpleHash t) h]
  rw [Real.sqrt_one]
  norm_num

theorem generateMockEmbedding_norm_one_witness :
    simpleHash "a" ≠ 0
      ∧ |Real.sqrt (sumSq (generateMockEmbedding "a")) - 1| ≤ 1 / 1000000 :=
  ⟨by decide, generateMockEmbedding_norm_one "a" (by decide)⟩

/-- C5 (counterexample): the one-character NUL text (non-empty, not
whitespace, so it reaches the generator through every pipeline path) hashes
to 0; every raw component is `sin 0 * 0.5 = 0`, the magnitude is 0, and the
resulting vector is not normalised — its norm is 0 (NaN components in the
JavaScript semantics), not within 1e-6 of 1. -/
theorem generateMockEmbedding_norm_one_cex :
    ¬ |Real.sqrt (sumSq (generateMockEmbedding (String.mk [Char.ofNat 0]))) - 1|
        ≤ 1 / 1000000 := by
  have h0 : simpleHash (String.mk [Char.ofNat 0]) = 0 := by decide
  rw [generateMockEmbedding, h0, sumSq_mockOfHash_zero, Real.sqrt_zero]
  norm_num

/-! ### Similarity query engine -/

theorem distLE_trans {Row α : Type} [LinearOrder α] (a b c : Row × α)
    (hab : distLE a b = true) (hbc : distLE b c = true) : distLE a c = true := by
  simp only [distLE, decide_eq_true_eq] at hab hbc ⊢
  exact le_trans hab hbc

theorem distLE_total {Row α : Type} [LinearOrder α] (a b : Row × α) :
    (distLE a b || distLE b a) = true := by
  simp only [distLE, Bool.or_eq_true, decide_eq_true_eq]
  exact le_total a.2 b.2

theorem take_mergeSort_sorted {Row α : Type} [LinearOrder α] (l : List (Row × α)) (n : Nat) :
    List.Pairwise (fun a b : Row × α => a.2 ≤ b.2) ((l.mergeSort distLE).take n) := by
  have hs := List.sorted_mergeSort
    (fun a b c => distLE_trans a b c) (fun a b => distLE_total a b) l
  have hs' : List.Pairwise (fun a b : Row × α => a.2 ≤ b.2) (l.mergeSort distLE) := by
    refine hs.imp ?_
    intro a b hab
    simpa [distLE] using hab
  exact List.Pairwise.sublist (List.take_sublist n _) hs'

theorem searchCandidates_mem_lt {V α : Type} [LinearOrder α] (store : List (IncidentRow V))
    (dist : V → α) (threshold : α) (categories : Option (List String))
    (startDate endDate : Int) (p : IncidentRow V × α)
    (hp : p ∈ searchCandidates store dist threshold categories startDate endDate) :
    p.2 < threshold := by
  simp only [searchCandidates] at hp
  rcases List.mem_filterMap.mp hp with ⟨r, _, hfr⟩
  cases hv : r.title_vector with
  | none => rw [hv] at hfr; simp at hfr
  | some v =>
    rw [hv] at hfr
    simp only at hfr
    split_ifs at hfr with hcond
    have hpe : (r, dist v) = p := Option.some.inj hfr
    subst hpe
    exact hcond.1

theorem semanticSearch_subset {V α : Type} [LinearOrder α] (store : List (IncidentRow V))
    (dist : V → α) (threshold : α) (lim : Nat) (categories : Option (List String))
    (startDate endDate : Int) (p : IncidentRow V × α)
    (hp : p ∈ semanticSearch store dist threshold lim categories startDate endDate) :
    p ∈ searchCandidates store dist threshold categories startDate endDate := by
  simp only [semanticSearch] at hp
  exact (List.mergeSort_perm _ distLE).mem_iff.mp ((List.take_sublist _ _).subset hp)

theorem semanticSearch_length_eq {V α : Type} [LinearOrder α] (store : List (IncidentRow V))
    (dist : V → α) (threshold : α) (lim : Nat) (categories : Option (List String))
    (startDate endDate : Int) :
    (semanticSearch store dist threshold lim categories startDate endDate).length
      = min lim (searchCandidates store dist threshold categories startDate endDate).length := by
  simp only [semanticSearch]
  rw [List.length_take]
  congr 1
  exact (List.mergeSort_perm _ distLE).length_eq

theorem semanticSearch_sorted {V α : Type} [LinearOrder α] (store : List (IncidentRow V))
    (dist : V → α) (threshold : α) (lim : Nat) (categories : Option (List String))
    (startDate endDate : Int) :
    List.Pairwise (fun a b : IncidentRow V × α => a.2 ≤ b.2)
      (semanticSearch store dist threshold lim categories startDate endDate) := by
  simp only [semanticSearch]
  exact take_mergeSort_sorted _ lim

/-- C7 (amended): for every similarity search with the query's cosine
distance — any threshold (the default resolves to 0.8 when the caller passes
none), limit, category filter and date window — every returned record has
distance strictly below the threshold, the results are ordered ascending by
distance, each result is one of the candidate rows passing the vector,
threshold, category and date-window predicates, and the number of results is
exactly the smaller of the limit and the number of such candidates (so with
exactly 3 candidates and limit 5, exactly 3 results are returned).  The
original claim's unconditional count over under-threshold records fails
because the date window is always applied (see the counterexample). -/
theorem semanticSearch_spec (store : List (IncidentRow (List ℝ))) (q : List ℝ)
    (threshold : ℝ) (lim : Nat) (categories : Option (List String))
    (startDate endDate : Int) :
    List.Forall (fun p => p.2 < threshold)
        (semanticSearch store (cosineDistance q) threshold lim categories startDate endDate)
      ∧ List.Pairwise (fun a b : IncidentRow (List ℝ) × ℝ => a.2 ≤ b.2)
          (semanticSearch store (cosineDistance q) threshold lim categories startDate endDate)
      ∧ (semanticSearch store (cosineDistance q) threshold lim categories
            startDate endDate).length
          = min lim (searchCandidates store (cosineDistance q) threshold categories
              startDate endDate).length
      ∧ List.Forall
          (fun p => p ∈ searchCandidates store (cosineDistance q) threshold categories
            startDate endDate)
          (semanticSearch store (cosineDistance q) threshold lim categories startDate endDate)
      ∧ resolveThreshold none (0.8 : ℝ) = 0.8 := by
  refine ⟨?_, ?_, ?_, ?_, rfl⟩
  · rw [List.forall_iff_forall_mem]
    intro p hp
    exact searchCandidates_mem_lt store (cosineDistance q) threshold categories
      startDate endDate p
      (semanticSearch_subset store (cosineDistance q) threshold lim categories
        startDate endDate p hp)
  · exact semanticSearch_sorted store (cosineDistance q) threshold lim categories
      startDate endDate
  · exact semanticSearch_length_eq store (cosineDistance q) threshold lim categories
      startDate endDate
  · rw [List.forall_iff_forall_mem]
    intro p hp
    exact semanticSearch_subset store (cosineDistance q) threshold lim categories
      startDate endDate p hp

/-- C7 (counterexample): the claim's scenario count is not unconditional.
Three stored unit vectors identical to the query (cosine distance 0, under
the 0.3 threshold) with limit 5 return 0 results, not 3, because their
datetime (100) falls outside the always-applied date window ([0, 10] here;
the source defaults it to yesterday–tomorrow when the caller passes no
dates). -/
theorem semanticSearch_scenario_cex :
    cosineDistance [(1 : ℝ)] [(1 : ℝ)] = 0
      ∧ ¬ ((semanticSearch
            [(⟨"a", some [(1 : ℝ)], "c", 100⟩ : IncidentRow (List ℝ)),
             ⟨"b", some [(1 : ℝ)], "c", 100⟩, ⟨"c", some [(1 : ℝ)], "c", 100⟩]
            (cosineDistance [(1 : ℝ)]) ((3 : ℝ) / 10) 5 none 0 10).length = 3) := by
  constructor
  · have h1 : sumSq [(1 : ℝ)] = 1 := by
      simp [sumSq]
    have h2 : dotProduct [(1 : ℝ)] [(1 : ℝ)] = 1 := by
      simp [dotProduct]
    rw [cosineDistance, h1, h2, Real.sqrt_one]
    norm_num
  · have hno : ¬ (cosineDistance [(1 : ℝ)] [(1 : ℝ)] < (3 : ℝ) / 10
        ∧ categoryOk none "c" = true ∧ (0 : ℤ) ≤ (100 : ℤ) ∧ (100 : ℤ) ≤ (10 : ℤ)) := by
      intro h
      have hd := h.2.2.2
      norm_num at hd
    have hc : searchCandidates
        [(⟨"a", some [(1 : ℝ)], "c", 100⟩ : IncidentRow (List ℝ)),
         ⟨"b", some [(1 : ℝ)], "c", 100⟩, ⟨"c", some [(1 : ℝ)], "c", 100⟩]
        (cosineDistance [(1 : ℝ)]) ((3 : ℝ) / 10) none 0 10 = [] := by
      simp only [searchCandidates, List.filterMap_cons, List.filterMap_nil]
      rw [if_neg hno, if_neg hno, if_neg hno]
    simp only [semanticSearch, hc, List.mergeSort_nil, List.take_nil]
    simp

theorem similarCandidates_mem_ne {V α : Type} (store : List (IncidentRow V))
    (dist : V → V → α) (incidentId : String) (qv : V) (p : IncidentRow V × α)
    (hp : p ∈ similarCandidates store dist incidentId qv) : p.1.id ≠ incidentId := by
  simp only [similarCandidates] at hp
  rcases List.mem_filterMap.mp hp with ⟨r, _, hfr⟩
  split_ifs at hfr with hid
  rcases Option.map_eq_some'.mp hfr with ⟨v, _, hpv⟩
  rw [← hpv]
  exact hid

/-- C8 (amended): `findSimilarIncidents` never raises: when the record is
absent, and equally when it is present but has no stored title vector, it
returns the empty ok-result (not a NotFound error).  When the vector exists,
the ok-result ranks the candidate rows (every other record having a title
vector, paired with its distance to the record's vector): its length is
exactly the smaller of the limit and the candidate count, every result is a
candidate, and when the candidates fit in the limit the result is a
permutation of all of them; in every case the record itself is excluded, the
results are ordered ascending by distance, and the list is capped at the
limit. -/
theorem findSimilarIncidents_spec {V α : Type} [LinearOrder α] (store : List (IncidentRow V))
    (dist : V → V → α) (incidentId : String) (lim : Nat)
    (res : List (IncidentRow V × α))
    (hres : findSimilarIncidents store dist incidentId lim = Except.ok res) :
    (store.find? (fun r => r.id == incidentId) = none → res = [])
      ∧ (∀ inc, store.find? (fun r => r.id == incidentId) = some inc →
          inc.title_vector = none → res = [])
      ∧ (∀ inc qv, store.find? (fun r => r.id == incidentId) = some inc →
          inc.title_vector = some qv →
            res.length = min lim (similarCandidates store dist incidentId qv).length
              ∧ List.Forall (fun p => p ∈ similarCandidates store dist incidentId qv) res
              ∧ ((similarCandidates store dist incidentId qv).length ≤ lim →
                  res.Perm (similarCandidates store dist incidentId qv)))
      ∧ List.Forall (fun p : IncidentRow V × α => p.1.id ≠ incidentId) res
      ∧ List.Pairwise (fun a b : IncidentRow V × α => a.2 ≤ b.2) res
      ∧ res.length ≤ lim := by
  cases hfind : store.find? (fun r => r.id == incidentId) with
  | none =>
    simp only [findSimilarIncidents, hfind, Except.ok.injEq] at hres
    subst hres
    refine ⟨fun _ => rfl, fun inc hfind2 _ => absurd hfind2 (by simp),
      fun inc qv2 hfind2 => absurd hfind2 (by simp), by simp, by simp, by simp⟩
  | some incident =>
    cases hv : incident.title_vector with
    | none =>
      simp only [findSimilarIncidents, hfind, hv, Except.ok.injEq] at hres
      subst hres
      refine ⟨fun h => absurd h (by simp), fun inc _ _ => rfl, ?_, by simp, by simp, by simp⟩
      intro inc qv2 hfind2 hv2
      have hinc : incident = inc := Option.some.inj hfind2
      subst hinc
      rw [hv] at hv2
      exact absurd hv2 (by simp)
    | some qv =>
      simp only [findSimilarIncidents, hfind, hv, Except.ok.injEq] at hres
      subst hres
      refine ⟨fun h => absurd h (by simp), ?_, ?_, ?_, ?_, ?_⟩
      · intro inc hfind2 hv2
        have hinc : incident = inc := Option.some.inj hfind2
        subst hinc
        rw [hv] at hv2
        exact absurd hv2 (by simp)
      · intro inc qv2 hfind2 hv2
        have hinc : incident = inc := Option.some.inj hfind2
        subst hinc
        rw [hv] at hv2
        have hqv : qv = qv2 := Option.some.inj hv2
        subst hqv
        refine ⟨?_, ?_, ?_⟩
        · rw [List.length_take]
          congr 1
          exact (List.mergeSort_perm _ distLE).length_eq
        · rw [List.forall_iff_forall_mem]
          intro p hp
          exact (List.mergeSort_perm _ distLE).mem_iff.mp
            ((List.take_sublist _ _).subset hp)
        · intro hlen
          rw [List.take_of_length_le
            (by rw [(List.mergeSort_perm _ distLE).length_eq]; exact hlen)]
          exact List.mergeSort_perm _ distLE
      · rw [List.forall_iff_forall_mem]
        intro p hp
        exact similarCandidates_mem_ne store dist incidentId qv p
          ((List.mergeSort_perm _ distLE).mem_iff.mp
            ((List.take_sublist _ _).subset hp))
      · exact take_mergeSort_sorted _ lim
      · rw [List.length_take]
        exact min_le_left _ _

theorem findSimilarIncidents_spec_witness :
    ((([⟨"a", some (0 : ℚ), "c", 0⟩, ⟨"b", some (1 : ℚ), "c", 0⟩] :
          List (IncidentRow ℚ)).find? (fun r => r.id == "a")) = none →
        ([((⟨"b", some (1 : ℚ), "c", 0⟩ : IncidentRow ℚ), (1 : ℚ))]) = [])
      ∧ (∀ inc, (([⟨"a", some (0 : ℚ), "c", 0⟩, ⟨"b", some (1 : ℚ), "c", 0⟩] :
            List (IncidentRow ℚ)).find? (fun r => r.id == "a")) = some inc →
          inc.title_vector = none →
            ([((⟨"b", some (1 : ℚ), "c", 0⟩ : IncidentRow ℚ), (1 : ℚ))]) = [])
      ∧ (∀ inc qv, (([⟨"a", some (0 : ℚ), "c", 0⟩, ⟨"b", some (1 : ℚ), "c", 0⟩] :
            List (IncidentRow ℚ)).find? (fun r => r.id == "a")) = some inc →
          inc.title_vector = some qv →
            ([((⟨"b", some (1 : ℚ), "c", 0⟩ : IncidentRow ℚ), (1 : ℚ))]).length
                = min 10 (similarCandidates
                    ([⟨"a", some (0 : ℚ), "c", 0⟩, ⟨"b", some (1 : ℚ), "c", 0⟩] :
                      List (IncidentRow ℚ)) (fun x y => y - x) "a" qv).length
              ∧ List.Forall
                  (fun p => p ∈ similarCandidates
                    ([⟨"a", some (0 : ℚ), "c", 0⟩, ⟨"b", some (1 : ℚ), "c", 0⟩] :
                      List (IncidentRow ℚ)) (fun x y => y - x) "a" qv)
                  ([((⟨"b", some (1 : ℚ), "c", 0⟩ : IncidentRow ℚ), (1 : ℚ))])
              ∧ ((similarCandidates
                    ([⟨"a", some (0 : ℚ), "c", 0⟩, ⟨"b", some (1 : ℚ), "c", 0⟩] :
                      List (IncidentRow ℚ)) (fun x y => y - x) "a" qv).length ≤ 10 →
                  ([((⟨"b", some (1 : ℚ), "c", 0⟩ : IncidentRow ℚ), (1 : ℚ))]).Perm
                    (similarCandidates
                      ([⟨"a", some (0 : ℚ), "c", 0⟩, ⟨"b", some (1 : ℚ), "c", 0⟩] :
                        List (IncidentRow ℚ)) (fun x y => y - x) "a" qv)))
      ∧ List.Forall (fun p : IncidentRow ℚ × ℚ => p.1.id ≠ "a")
          ([((⟨"b", some (1 : ℚ), "c", 0⟩ : IncidentRow ℚ), (1 : ℚ))])
      ∧ List.Pairwise (fun a b : IncidentRow ℚ × ℚ => a.2 ≤ b.2)
          ([((⟨"b", some (1 : ℚ), "c", 0⟩ : IncidentRow ℚ), (1 : ℚ))])
      ∧ ([((⟨"b", some (1 : ℚ), "c", 0⟩ : IncidentRow ℚ), (1 : ℚ))]).length ≤ 10 :=
  findSimilarIncidents_spec
    ([⟨"a", some (0 : ℚ), "c", 0⟩, ⟨"b", some (1 : ℚ), "c", 0⟩] : List (IncidentRow ℚ))
    (fun x y => y - x) "a" 10
    ([((⟨"b", some (1 : ℚ), "c", 0⟩ : IncidentRow ℚ), (1 : ℚ))])
    (by simp [findSimilarIncidents, similarCandidates, List.mergeSort_singleton])

/-- C8 (counterexample): neither failure case of the claim raises a NotFound
error in the code — with record "x" absent from the store, and equally with
"x" present but lacking a stored title vector, the operation returns the ok
empty list. -/
theorem findSimilarIncidents_notfound_cex :
    findSimilarIncidents ([] : List (IncidentRow ℚ)) (fun x y => y - x) "x" 10
        = Except.ok []
      ∧ findSimilarIncidents [(⟨"x", none, "c", 0⟩ : IncidentRow ℚ)]
          (fun x y => y - x) "x" 10 = Except.ok [] :=
  ⟨rfl, rfl⟩

/-! ### EmbeddingsService: cache behaviour and batch shape -/

/-- C3 (amended): with the remote provider configured and answering, two
single-text requests whose texts are identical after lowercasing and trimming
invoke the provider exactly once: the first call stores the vector in the
cache under the content-addressed key, the second is served from the cache
and returns the same vector, and the fallback is never invoked. -/
theorem generateEmbedding_provider_invoked_once {V : Type} (p : String → V)
    (mock : String → V) (t1 t2 : String) (h1 : jsTrim t1 ≠ "") (h2 : jsTrim t2 ≠ "")
    (hk : jsTrim (jsToLower t1) = jsTrim (jsToLower t2)) :
    ((generateEmbedding (some p) mock
          ((generateEmbedding (some p) mock (emptyEmbState V) t1).1) t2).1).providerCalls = 1
      ∧ ((generateEmbedding (some p) mock
          ((generateEmbedding (some p) mock (emptyEmbState V) t1).1) t2).1).fallbackCalls = 0
      ∧ ((generateEmbedding (some p) mock
          ((generateEmbedding (some p) mock (emptyEmbState V) t1).1) t2).1).cache
          = [(createCacheKey t1, p (jsTake t1 8191))]
      ∧ (generateEmbedding (some p) mock
          ((generateEmbedding (some p) mock (emptyEmbState V) t1).1) t2).2
          = (generateEmbedding (some p) mock (emptyEmbState V) t1).2 := by
  have hkey : createCacheKey t2 = createCacheKey t1 := by
    simp only [createCacheKey]
    rw [hk]
  have hs1 : generateEmbedding (some p) mock (emptyEmbState V) t1
      = (⟨[(createCacheKey t1, p (jsTake t1 8191))], 1, 0⟩,
         some (p (jsTake t1 8191))) := by
    simp only [generateEmbedding]
    rw [if_neg h1]
    simp [lookupCache, emptyEmbState]
  rw [hs1]
  simp only [generateEmbedding]
  rw [if_neg h2, hkey]
  simp [lookupCache]

theorem generateEmbedding_provider_invoked_once_witness :
    jsTrim "A " ≠ "" ∧ jsTrim "a" ≠ ""
      ∧ jsTrim (jsToLower "A ") = jsTrim (jsToLower "a")
      ∧ (((generateEmbedding (some simpleHash) simpleHash
            ((generateEmbedding (some simpleHash) simpleHash
              (emptyEmbState Int) "A ").1) "a").1).providerCalls = 1
        ∧ ((generateEmbedding (some simpleHash) simpleHash
            ((generateEmbedding (some simpleHash) simpleHash
              (emptyEmbState Int) "A ").1) "a").1).fallbackCalls = 0
        ∧ ((generateEmbedding (some simpleHash) simpleHash
            ((generateEmbedding (some simpleHash) simpleHash
              (emptyEmbState Int) "A ").1) "a").1).cache
            = [(createCacheKey "A ", simpleHash (jsTake "A " 8191))]
        ∧ (generateEmbedding (some simpleHash) simpleHash
            ((generateEmbedding (some simpleHash) simpleHash
              (emptyEmbState Int) "A ").1) "a").2
            = (generateEmbedding (some simpleHash) simpleHash
              (emptyEmbState Int) "A ").2) :=
  ⟨by decide, by decide, by decide,
   generateEmbedding_provider_invoked_once simpleHash simpleHash "A " "a"
     (by decide) (by decide) (by decide)⟩

/-- C3 (counterexample): with the remote provider unconfigured, the fallback
path of `generateEmbedding` caches nothing, so two requests with the very
same text invoke the deterministic fallback generator twice — not at most
once. -/
theorem generateEmbedding_fallback_not_cached_cex :
    ¬ (((generateEmbedding none generateMockEmbedding
          ((generateEmbedding none generateMockEmbedding
            (emptyEmbState (List ℝ)) "a").1) "a").1).fallbackCalls ≤ 1) := by
  decide

/-- C6 (amended): `generateBatchEmbeddings` returns exactly one vector per
valid (non-empty after trimming) input text — empty and whitespace-only
texts are dropped from the output, not mapped to null placeholders — and on
the fallback path from a fresh state the vectors are the fallback embeddings
of the truncated valid texts, in input order. -/
theorem generateBatchEmbeddings_shape {V : Type} (provider : Option (String → V))
    (mock : String → V) (st : EmbState V) (texts : List String) :
    (generateBatchEmbeddings provider mock st texts).2.length
        = (texts.filter validTextB).length
      ∧ (generateBatchEmbeddings none mock (emptyEmbState V) texts).2
          = (texts.filter validTextB).map (fun t => mock (jsTake t 8191)) := by
  constructor
  · simp only [generateBatchEmbeddings]
    split_ifs with hft
    · rw [hft]
      rfl
    · cases provider <;> simp
  · simp only [generateBatchEmbeddings]
    split_ifs with hft
    · rw [hft]
      rfl
    · simp [lookupCache, emptyEmbState, produceOne]

/-- C6 (counterexample): the batch path filters empty texts out instead of
returning null at their position — on input `["", "a"]` the output has
length 1, not the input length 2. -/
theorem generateBatchEmbeddings_length_cex :
    ¬ ((generateBatchEmbeddings none generateMockEmbedding (emptyEmbState (List ℝ))
          ["", "a"]).2.length = (["", "a"] : List String).length) := by
  decide

/-! ### Truncation divergence between the single and batch fallback paths -/

theorem flatMap_utf16_bmp (l : List Char) (hl : ∀ c ∈ l, c.toNat < 0x10000) :
    l.flatMap utf16Units = l.map Char.toNat := by
  induction l with
  | nil => rfl
  | cons c cs ih =>
    rw [List.flatMap_cons, List.map_cons]
    simp only [utf16Units]
    rw [if_pos (hl c (List.mem_cons_self c cs))]
    rw [ih (fun d hd => hl d (List.mem_cons_of_mem c hd))]
    rfl

theorem charCodes_of_bmp (l : List Char) (hl : ∀ c ∈ l, c.toNat < 0x10000) :
    charCodes (String.mk l) = l.map Char.toNat :=
  flatMap_utf16_bmp l hl

theorem foldl_hashStep_replicate (n : Nat) :
    (List.replicate n 0).foldl hashStep 0 = 0 := by
  induction n with
  | zero => rfl
  | succ n ih =>
    rw [List.replicate_succ, List.foldl_cons]
    have h00 : hashStep 0 0 = 0 := by decide
    rw [h00, ih]

theorem nulPad_bmp :
    ∀ c ∈ List.replicate 8191 (Char.ofNat 0) ++ ['a'], c.toNat < 0x10000 := by
  intro c hc
  rcases List.mem_append.mp hc with hc | hc
  · rw [List.eq_of_mem_replicate hc]
    decide
  · rw [List.mem_singleton.mp hc]
    decide

theorem simpleHash_nulPad :
    simpleHash (String.mk (List.replicate 8191 (Char.ofNat 0) ++ ['a'])) = 97 := by
  rw [simpleHash, charCodes_of_bmp _ nulPad_bmp, List.map_append, List.map_replicate]
  have h0 : (Char.ofNat 0).toNat = 0 := by decide
  rw [h0, List.foldl_append, foldl_hashStep_replicate]
  decide

theorem simpleHash_nulOnly :
    simpleHash (String.mk (List.replicate 8191 (Char.ofNat 0))) = 0 := by
  rw [simpleHash]
  rw [charCodes_of_bmp _ (fun c hc => by rw [List.eq_of_mem_replicate hc]; decide)]
  rw [List.map_replicate]
  have h0 : (Char.ofNat 0).toNat = 0 := by decide
  rw [h0, foldl_hashStep_replicate]
  rfl

theorem jsTake_nulPad :
    jsTake (String.mk (List.replicate 8191 (Char.ofNat 0) ++ ['a'])) 8191
      = String.mk (List.replicate 8191 (Char.ofNat 0)) := by
  have h : List.take 8191 (List.replicate 8191 (Char.ofNat 0) ++ ['a'])
      = List.replicate 8191 (Char.ofNat 0) := by
    have h2 := List.take_left (List.replicate 8191 (Char.ofNat 0)) ['a']
    rwa [List.length_replicate] at h2
  show String.mk (List.take 8191 (List.replicate 8191 (Char.ofNat 0) ++ ['a']))
      = String.mk (List.replicate 8191 (Char.ofNat 0))
  rw [h]

theorem dropWhile_cons_false {α : Type} (p : α → Bool) (a : α) (l : List α)
    (ha : p a = false) : List.dropWhile p (a :: l) = a :: l := by
  simp [List.dropWhile_cons, ha]

theorem jsTrim_nulPad :
    jsTrim (String.mk (List.replicate 8191 (Char.ofNat 0) ++ ['a']))
      = String.mk (List.replicate 8191 (Char.ofNat 0) ++ ['a']) := by
  have hcons : List.replicate 8191 (Char.ofNat 0) ++ ['a']
      = Char.ofNat 0 :: (List.replicate 8190 (Char.ofNat 0) ++ ['a']) := by
    rw [show (8191 : Nat) = 8190 + 1 from rfl, List.replicate_succ, List.cons_append]
  have hnul : jsWhitespace (Char.ofNat 0) = false := by decide
  have ha : jsWhitespace 'a' = false := by decide
  have h1 : List.dropWhile jsWhitespace (List.replicate 8191 (Char.ofNat 0) ++ ['a'])
      = List.replicate 8191 (Char.ofNat 0) ++ ['a'] := by
    rw [hcons, dropWhile_cons_false _ _ _ hnul]
  have hrev : (List.replicate 8191 (Char.ofNat 0) ++ ['a']).reverse
      = 'a' :: (List.replicate 8191 (Char.ofNat 0)).reverse := by
    rw [List.reverse_append, List.reverse_singleton, List.singleton_append]
  have h2 : List.dropWhile jsWhitespace ((List.replicate 8191 (Char.ofNat 0) ++ ['a']).reverse)
      = (List.replicate 8191 (Char.ofNat 0) ++ ['a']).reverse := by
    rw [hrev, dropWhile_cons_false _ _ _ ha]
  show String.mk ((((List.replicate 8191 (Char.ofNat 0) ++ ['a']).dropWhile
      jsWhitespace).reverse.dropWhile jsWhitespace).reverse)
      = String.mk (List.replicate 8191 (Char.ofNat 0) ++ ['a'])
  rw [h1, h2, List.reverse_reverse]

theorem nulPad_ne_empty :
    String.mk (List.replicate 8191 (Char.ofNat 0) ++ ['a']) ≠ "" := by
  intro h
  have hd : List.replicate 8191 (Char.ofNat 0) ++ ['a'] = ([] : List Char) :=
    congrArg String.data h
  exact absurd (List.append_eq_nil.mp hd).2 (by simp)

theorem generateEmbedding_fallback_eval {V : Type} (mock : String → V) (t : String)
    (ht : jsTrim t ≠ "") :
    generateEmbedding none mock (emptyEmbState V) t
      = (⟨[], 0, 1⟩, some (mock t)) := by
  unfold generateEmbedding
  rw [if_neg ht]
  rfl

theorem generateBatchEmbeddings_fallback_eval_single {V : Type} (mock : String → V)
    (t : String) (ht : validTextB t = true) :
    generateBatchEmbeddings none mock (emptyEmbState V) [t]
      = (⟨[], 0, 1⟩, [mock (jsTake t 8191)]) := by
  simp only [generateBatchEmbeddings]
  rw [List.filter_cons_of_pos ht]
  simp [lookupCache, produceOne, emptyEmbState]

theorem nulPad_trim_ne :
    ¬ (jsTrim (String.mk (List.replicate 8191 (Char.ofNat 0) ++ ['a'])) = "") := by
  rw [jsTrim_nulPad]
  exact nulPad_ne_empty

theorem nulPad_validTextB :
    validTextB (String.mk (List.replicate 8191 (Char.ofNat 0) ++ ['a'])) = true := by
  simp only [validTextB, Bool.not_eq_true']
  rw [jsTrim_nulPad]
  exact beq_eq_false_iff_ne.mpr nulPad_ne_empty

/-- C9 (counterexample): with the provider unavailable, the single-text path
feeds the untruncated text to the fallback generator while the batch path
feeds the text truncated at 8191 UTF-16 units; on a 8192-unit text made of
8191 NUL characters followed by `a`, the single path hashes to 97 and the
batch path to 0, and the two produced vectors differ (the 97-vector has sum
of squared components 1, the 0-vector has 0). -/
theorem generateEmbedding_batch_paths_differ_cex :
    (generateEmbedding none generateMockEmbedding (emptyEmbState (List ℝ))
        (String.mk (List.replicate 8191 (Char.ofNat 0) ++ ['a']))).2
      ≠ ((generateBatchEmbeddings none generateMockEmbedding (emptyEmbState (List ℝ))
          [String.mk (List.replicate 8191 (Char.ofNat 0) ++ ['a'])]).2).head? := by
  rw [generateEmbedding_fallback_eval generateMockEmbedding _ nulPad_trim_ne]
  rw [generateBatchEmbeddings_fallback_eval_single generateMockEmbedding _ nulPad_validTextB]
  rw [jsTake_nulPad]
  simp only [List.head?_cons]
  intro h
  have hv := Option.some.inj h
  have hsq := congrArg sumSq hv
  rw [generateMockEmbedding, generateMockEmbedding, simpleHash_nulPad, simpleHash_nulOnly] at hsq
  rw [sumSq_mockOfHash_eq_one 97 (by norm_num), sumSq_mockOfHash_zero] at hsq
  norm_num at hsq

/-- C9 (amended): with the provider unavailable and a fresh state, the
single-text path and the one-element batch path produce the same vector for
every non-empty text of at most 8191 UTF-16 units (truncation is the
identity there); longer texts diverge because only the batch path
truncates before the fallback generation (see the counterexample). -/
theorem generateEmbedding_batch_paths_agree {V : Type} (mock : String → V) (t : String)
    (ht : jsTrim t ≠ "") (hlen : jsTake t 8191 = t) :
    (generateEmbedding none mock (emptyEmbState V) t).2
      = ((generateBatchEmbeddings none mock (emptyEmbState V) [t]).2).head? := by
  have hvalid : validTextB t = true := by
    simp only [validTextB, Bool.not_eq_true']
    exact beq_eq_false_iff_ne.mpr ht
  rw [generateEmbedding_fallback_eval mock t ht]
  rw [generateBatchEmbeddings_fallback_eval_single mock t hvalid]
  rw [hlen]
  simp only [List.head?_cons]

theorem generateEmbedding_batch_paths_agree_witness :
    jsTrim "a" ≠ "" ∧ jsTake "a" 8191 = "a"
      ∧ (generateEmbedding none simpleHash (emptyEmbState Int) "a").2
          = ((generateBatchEmbeddings none simpleHash (emptyEmbState Int) ["a"]).2).head? :=
  ⟨by decide, by decide,
   generateEmbedding_batch_paths_agree simpleHash "a" (by decide) (by decide)⟩

/-! ### Backfill write-back: row-level structure of the update loops -/

def rowUpdateT {V : Type} (embs : List V) (p : Nat × Incident V) (r : Incident V) :
    Incident V :=
  match embs[p.1]? with
  | some v => if r.id = p.2.id then { r with title_vector := some v } else r
  | none => r

def rowUpdateD {V : Type} (embs : List V) (p : Nat × Incident V) (r : Incident V) :
    Incident V :=
  match embs[p.1]? with
  | some v => if r.id = p.2.id then { r with description_vector := some v } else r
  | none => r

theorem applyUpdates_title_eq_map {V : Type} (targets : List (Incident V)) (embs : List V)
    (store : List (Incident V)) :
    applyUpdates setTitleVector targets embs store
      = store.map (fun r => targets.enum.foldl (fun r p => rowUpdateT embs p r) r) := by
  unfold applyUpdates
  generalize targets.enum = l
  induction l generalizing store with
  | nil => simp
  | cons p l ih =>
    have hstep : (match embs[p.1]? with
        | some v => setTitleVector p.2.id v store
        | none => store) = store.map (fun r => rowUpdateT embs p r) := by
      cases hv : embs[p.1]? with
      | none => simp [rowUpdateT, hv]
      | some v => simp [rowUpdateT, hv, setTitleVector]
    simp only [List.foldl_cons]
    rw [hstep, ih, List.map_map]
    rfl

theorem applyUpdates_description_eq_map {V : Type} (targets : List (Incident V)) (embs : List V)
    (store : List (Incident V)) :
    applyUpdates setDescriptionVector targets embs store
      = store.map (fun r => targets.enum.foldl (fun r p => rowUpdateD embs p r) r) := by
  unfold applyUpdates
  generalize targets.enum = l
  induction l generalizing store with
  | nil => simp
  | cons p l ih =>
    have hstep : (match embs[p.1]? with
        | some v => setDescriptionVector p.2.id v store
        | none => store) = store.map (fun r => rowUpdateD embs p r) := by
      cases hv : embs[p.1]? with
      | none => simp [rowUpdateD, hv]
      | some v => simp [rowUpdateD, hv, setDescriptionVector]
    simp only [List.foldl_cons]
    rw [hstep, ih, List.map_map]
    rfl

theorem rowUpdateT_proj {V : Type} (embs : List V) (p : Nat × Incident V) (r : Incident V) :
    (rowUpdateT embs p r).id = r.id ∧ (rowUpdateT embs p r).title = r.title
      ∧ (rowUpdateT embs p r).description = r.description
      ∧ (rowUpdateT embs p r).description_vector = r.description_vector := by
  unfold rowUpdateT
  cases embs[p.1]? with
  | none => exact ⟨rfl, rfl, rfl, rfl⟩
  | some v => by_cases h : r.id = p.2.id <;> simp [h]

theorem rowUpdateD_proj {V : Type} (embs : List V) (p : Nat × Incident V) (r : Incident V) :
    (rowUpdateD embs p r).id = r.id ∧ (rowUpdateD embs p r).title = r.title
      ∧ (rowUpdateD embs p r).description = r.description
      ∧ (rowUpdateD embs p r).title_vector = r.title_vector := by
  unfold rowUpdateD
  cases embs[p.1]? with
  | none => exact ⟨rfl, rfl, rfl, rfl⟩
  | some v => by_cases h : r.id = p.2.id <;> simp [h]

theorem rowUpdateT_mono {V : Type} (embs : List V) (p : Nat × Incident V) (r : Incident V)
    (hr : r.title_vector.isSome = true) : (rowUpdateT embs p r).title_vector.isSome = true := by
  unfold rowUpdateT
  cases embs[p.1]? with
  | none => exact hr
  | some v => by_cases h : r.id = p.2.id <;> simp [h, hr]

theorem rowUpdateD_mono {V : Type} (embs : List V) (p : Nat × Incident V) (r : Incident V)
    (hr : r.description_vector.isSome = true) :
    (rowUpdateD embs p r).description_vector.isSome = true := by
  unfold rowUpdateD
  cases embs[p.1]? with
  | none => exact hr
  | some v => by_cases h : r.id = p.2.id <;> simp [h, hr]

theorem rowUpdateT_set {V : Type} (embs : List V) (p : Nat × Incident V) (r : Incident V)
    (hid : p.2.id = r.id) (hsome : (embs[p.1]?).isSome = true) :
    (rowUpdateT embs p r).title_vector.isSome = true := by
  rcases Option.isSome_iff_exists.mp hsome with ⟨v, hv⟩
  simp [rowUpdateT, hv, hid]

theorem rowUpdateD_set {V : Type} (embs : List V) (p : Nat × Incident V) (r : Incident V)
    (hid : p.2.id = r.id) (hsome : (embs[p.1]?).isSome = true) :
    (rowUpdateD embs p r).description_vector.isSome = true := by
  rcases Option.isSome_iff_exists.mp hsome with ⟨v, hv⟩
  simp [rowUpdateD, hv, hid]

theorem foldT_proj {V : Type} (embs : List V) (l : List (Nat × Incident V)) (r : Incident V) :
    (l.foldl (fun r p => rowUpdateT embs p r) r).id = r.id
      ∧ (l.foldl (fun r p => rowUpdateT embs p r) r).title = r.title
      ∧ (l.foldl (fun r p => rowUpdateT embs p r) r).description = r.description
      ∧ (l.foldl (fun r p => rowUpdateT embs p r) r).description_vector
          = r.description_vector := by
  induction l generalizing r with
  | nil => exact ⟨rfl, rfl, rfl, rfl⟩
  | cons p l ih =>
    simp only [List.foldl_cons]
    rcases ih (rowUpdateT embs p r) with ⟨h1, h2, h3, h4⟩
    rcases rowUpdateT_proj embs p r with ⟨g1, g2, g3, g4⟩
    exact ⟨h1.trans g1, h2.trans g2, h3.trans g3, h4.trans g4⟩

theorem foldD_proj {V : Type} (embs : List V) (l : List (Nat × Incident V)) (r : Incident V) :
    (l.foldl (fun r p => rowUpdateD embs p r) r).id = r.id
      ∧ (l.foldl (fun r p => rowUpdateD embs p r) r).title = r.title
      ∧ (l.foldl (fun r p => rowUpdateD embs p r) r).description = r.description
      ∧ (l.foldl (fun r p => rowUpdateD embs p r) r).title_vector = r.title_vector := by
  induction l generalizing r with
  | nil => exact ⟨rfl, rfl, rfl, rfl⟩
  | cons p l ih =>
    simp only [List.foldl_cons]
    rcases ih (rowUpdateD embs p r) with ⟨h1, h2, h3, h4⟩
    rcases rowUpdateD_proj embs p r with ⟨g1, g2, g3, g4⟩
    exact ⟨h1.trans g1, h2.trans g2, h3.trans g3, h4.trans g4⟩

theorem foldT_mono {V : Type} (embs : List V) (l : List (Nat × Incident V)) (r : Incident V)
    (hr : r.title_vector.isSome = true) :
    (l.foldl (fun r p => rowUpdateT embs p r) r).title_vector.isSome = true := by
  induction l generalizing r with
  | nil => exact hr
  | cons p l ih =>
    simp only [List.foldl_cons]
    exact ih _ (rowUpdateT_mono embs p r hr)

theorem foldD_mono {V : Type} (embs : List V) (l : List (Nat × Incident V)) (r : Incident V)
    (hr : r.description_vector.isSome = true) :
    (l.foldl (fun r p => rowUpdateD embs p r) r).description_vector.isSome = true := by
  induction l generalizing r with
  | nil => exact hr
  | cons p l ih =>
    simp only [List.foldl_cons]
    exact ih _ (rowUpdateD_mono embs p r hr)

theorem foldT_hit {V : Type} (embs : List V) (p : Nat × Incident V)
    (hsome : (embs[p.1]?).isSome = true) :
    ∀ (l : List (Nat × Incident V)) (r : Incident V), p ∈ l → p.2.id = r.id →
      (l.foldl (fun r p => rowUpdateT embs p r) r).title_vector.isSome = true := by
  intro l
  induction l with
  | nil => intro r hp _; cases hp
  | cons q l ih =>
    intro r hp hid
    simp only [List.foldl_cons]
    rcases List.mem_cons.mp hp with heq | hq
    · subst heq
      exact foldT_mono embs l _ (rowUpdateT_set embs p r hid hsome)
    · exact ih (rowUpdateT embs q r) hq
        (by rw [(rowUpdateT_proj embs q r).1]; exact hid)

theorem foldD_hit {V : Type} (embs : List V) (p : Nat × Incident V)
    (hsome : (embs[p.1]?).isSome = true) :
    ∀ (l : List (Nat × Incident V)) (r : Incident V), p ∈ l → p.2.id = r.id →
      (l.foldl (fun r p => rowUpdateD embs p r) r).description_vector.isSome = true := by
  intro l
  induction l with
  | nil => intro r hp _; cases hp
  | cons q l ih =>
    intro r hp hid
    simp only [List.foldl_cons]
    rcases List.mem_cons.mp hp with heq | hq
    · subst heq
      exact foldD_mono embs l _ (rowUpdateD_set embs p r hid hsome)
    · exact ih (rowUpdateD embs q r) hq
        (by rw [(rowUpdateD_proj embs q r).1]; exact hid)

/-! ### Backfill: per-batch selection and the row-pass decomposition -/

def needsTitleOf {V : Type} (batch : List (Incident V)) : List (Incident V) :=
  batch.filter (fun inc => inc.title_vector.isNone && !(inc.title == ""))

def needsDescriptionOf {V : Type} (batch : List (Incident V)) : List (Incident V) :=
  batch.filter (fun inc => inc.description_vector.isNone && !(inc.description == ""))

def titleEmbsOf {V : Type} (embed : String → V) (batch : List (Incident V)) : List V :=
  batchEmbedPure embed ((needsTitleOf batch).map (fun inc => inc.title))

def descriptionEmbsOf {V : Type} (embed : String → V) (batch : List (Incident V)) : List V :=
  batchEmbedPure embed ((needsDescriptionOf batch).map (fun inc => inc.description))

theorem processSingleBatch_eq {V : Type} (embed : String → V)
    (batch store : List (Incident V)) :
    processSingleBatch embed batch store
      = applyUpdates setDescriptionVector (needsDescriptionOf batch)
          (descriptionEmbsOf embed batch)
          (applyUpdates setTitleVector (needsTitleOf batch) (titleEmbsOf embed batch) store) :=
  rfl

def rowPassT {V : Type} (embed : String → V) (batch : List (Incident V)) (r : Incident V) :
    Incident V :=
  (needsTitleOf batch).enum.foldl (fun r p => rowUpdateT (titleEmbsOf embed batch) p r) r

def rowPassD {V : Type} (embed : String → V) (batch : List (Incident V)) (r : Incident V) :
    Incident V :=
  (needsDescriptionOf batch).enum.foldl
    (fun r p => rowUpdateD (descriptionEmbsOf embed batch) p r) r

def rowPass {V : Type} (embed : String → V) (batch : List (Incident V)) (r : Incident V) :
    Incident V :=
  rowPassD embed batch (rowPassT embed batch r)

theorem processSingleBatch_map {V : Type} (embed : String → V)
    (batch store : List (Incident V)) :
    processSingleBatch embed batch store = store.map (fun r => rowPass embed batch r) := by
  rw [processSingleBatch_eq, applyUpdates_title_eq_map, applyUpdates_description_eq_map,
    List.map_map]
  rfl

theorem titleEmbsOf_length {V : Type} (embed : String → V) (batch : List (Incident V))
    (hb : ∀ i ∈ batch, i.title_vector.isNone = true → jsTrim i.title ≠ "") :
    (titleEmbsOf embed batch).length = (needsTitleOf batch).length := by
  unfold titleEmbsOf batchEmbedPure
  have hfil : ((needsTitleOf batch).map (fun inc => inc.title)).filter validTextB
      = (needsTitleOf batch).map (fun inc => inc.title) := by
    rw [List.filter_eq_self]
    intro t ht
    rcases List.mem_map.mp ht with ⟨i, hi, rfl⟩
    rcases List.mem_filter.mp hi with ⟨hib, hpred⟩
    rw [Bool.and_eq_true] at hpred
    have htrim := hb i hib hpred.1
    simp only [validTextB, Bool.not_eq_true']
    exact beq_eq_false_iff_ne.mpr htrim
  rw [hfil, List.length_map, List.length_map]

theorem descriptionEmbsOf_length {V : Type} (embed : String → V) (batch : List (Incident V))
    (hb : ∀ i ∈ batch, i.description_vector.isNone = true → jsTrim i.description ≠ "") :
    (descriptionEmbsOf embed batch).length = (needsDescriptionOf batch).length := by
  unfold descriptionEmbsOf batchEmbedPure
  have hfil : ((needsDescriptionOf batch).map (fun inc => inc.description)).filter validTextB
      = (needsDescriptionOf batch).map (fun inc => inc.description) := by
    rw [List.filter_eq_self]
    intro t ht
    rcases List.mem_map.mp ht with ⟨i, hi, rfl⟩
    rcases List.mem_filter.mp hi with ⟨hib, hpred⟩
    rw [Bool.and_eq_true] at hpred
    have htrim := hb i hib hpred.1
    simp only [validTextB, Bool.not_eq_true']
    exact beq_eq_false_iff_ne.mpr htrim
  rw [hfil, List.length_map, List.length_map]

theorem titleEmbsOf_isSome {V : Type} (embed : String → V) (batch : List (Incident V))
    (hb : ∀ i ∈ batch, i.title_vector.isNone = true → jsTrim i.title ≠ "") (idx : Nat)
    (hidx : idx < (needsTitleOf batch).length) :
    ((titleEmbsOf embed batch)[idx]?).isSome = true := by
  rw [← Option.ne_none_iff_isSome]
  intro hnone
  rw [List.getElem?_eq_none_iff, titleEmbsOf_length embed batch hb] at hnone
  omega

theorem descriptionEmbsOf_isSome {V : Type} (embed : String → V) (batch : List (Incident V))
    (hb : ∀ i ∈ batch, i.description_vector.isNone = true → jsTrim i.description ≠ "")
    (idx : Nat) (hidx : idx < (needsDescriptionOf batch).length) :
    ((descriptionEmbsOf embed batch)[idx]?).isSome = true := by
  rw [← Option.ne_none_iff_isSome]
  intro hnone
  rw [List.getElem?_eq_none_iff, descriptionEmbsOf_length embed batch hb] at hnone
  omega

theorem rowPassT_proj {V : Type} (embed : String → V) (batch : List (Incident V))
    (r : Incident V) :
    (rowPassT embed batch r).id = r.id ∧ (rowPassT embed batch r).title = r.title
      ∧ (rowPassT embed batch r).description = r.description
      ∧ (rowPassT embed batch r).description_vector = r.description_vector :=
  foldT_proj _ _ r

theorem rowPassD_proj {V : Type} (embed : String → V) (batch : List (Incident V))
    (r : Incident V) :
    (rowPassD embed batch r).id = r.id ∧ (rowPassD embed batch r).title = r.title
      ∧ (rowPassD embed batch r).description = r.description
      ∧ (rowPassD embed batch r).title_vector = r.title_vector :=
  foldD_proj _ _ r

theorem rowPass_proj {V : Type} (embed : String → V) (batch : List (Incident V))
    (r : Incident V) :
    (rowPass embed batch r).id = r.id ∧ (rowPass embed batch r).title = r.title
      ∧ (rowPass embed batch r).description = r.description := by
  unfold rowPass
  rcases rowPassD_proj embed batch (rowPassT embed batch r) with ⟨d1, d2, d3, _⟩
  rcases rowPassT_proj embed batch r with ⟨t1, t2, t3, _⟩
  exact ⟨d1.trans t1, d2.trans t2, d3.trans t3⟩

theorem rowPass_monoT {V : Type} (embed : String → V) (batch : List (Incident V))
    (r : Incident V) (hr : r.title_vector.isSome = true) :
    (rowPass embed batch r).title_vector.isSome = true := by
  unfold rowPass
  rw [(rowPassD_proj embed batch (rowPassT embed batch r)).2.2.2]
  exact foldT_mono _ _ r hr

theorem rowPass_monoD {V : Type} (embed : String → V) (batch : List (Incident V))
    (r : Incident V) (hr : r.description_vector.isSome = true) :
    (rowPass embed batch r).description_vector.isSome = true := by
  unfold rowPass
  apply foldD_mono
  rw [(rowPassT_proj embed batch r).2.2.2]
  exact hr

theorem rowPass_goodT {V : Type} (embed : String → V) (batch : List (Incident V))
    (r i : Incident V) (hi : i ∈ batch)
    (hb : ∀ j ∈ batch, j.title_vector.isNone = true → jsTrim j.title ≠ "")
    (hnone : i.title_vector.isNone = true) (htext : i.title ≠ "") (hid : i.id = r.id) :
    (rowPass embed batch r).title_vector.isSome = true := by
  unfold rowPass
  rw [(rowPassD_proj embed batch (rowPassT embed batch r)).2.2.2]
  have himem : i ∈ needsTitleOf batch := by
    refine List.mem_filter.mpr ⟨hi, ?_⟩
    rw [Bool.and_eq_true]
    refine ⟨hnone, ?_⟩
    rw [Bool.not_eq_true']
    exact beq_eq_false_iff_ne.mpr htext
  rcases List.mem_iff_getElem.mp himem with ⟨idx, hlt, hidx⟩
  have hl : idx < (needsTitleOf batch).enum.length := by
    rw [List.enum_length]
    exact hlt
  have hpair : (idx, i) ∈ (needsTitleOf batch).enum := by
    have hg := List.getElem_enum (needsTitleOf batch) idx hl
    rw [hidx] at hg
    rw [← hg]
    exact List.getElem_mem hl
  exact foldT_hit (titleEmbsOf embed batch) (idx, i)
    (titleEmbsOf_isSome embed batch hb idx hlt) _ r hpair hid

theorem rowPass_goodD {V : Type} (embed : String → V) (batch : List (Incident V))
    (r i : Incident V) (hi : i ∈ batch)
    (hb : ∀ j ∈ batch, j.description_vector.isNone = true → jsTrim j.description ≠ "")
    (hnone : i.description_vector.isNone = true) (htext : i.description ≠ "")
    (hid : i.id = r.id) :
    (rowPass embed batch r).description_vector.isSome = true := by
  unfold rowPass
  have himem : i ∈ needsDescriptionOf batch := by
    refine List.mem_filter.mpr ⟨hi, ?_⟩
    rw [Bool.and_eq_true]
    refine ⟨hnone, ?_⟩
    rw [Bool.not_eq_true']
    exact beq_eq_false_iff_ne.mpr htext
  rcases List.mem_iff_getElem.mp himem with ⟨idx, hlt, hidx⟩
  have hl : idx < (needsDescriptionOf batch).enum.length := by
    rw [List.enum_length]
    exact hlt
  have hpair : (idx, i) ∈ (needsDescriptionOf batch).enum := by
    have hg := List.getElem_enum (needsDescriptionOf batch) idx hl
    rw [hidx] at hg
    rw [← hg]
    exact List.getElem_mem hl
  refine foldD_hit (descriptionEmbsOf embed batch) (idx, i)
    (descriptionEmbsOf_isSome embed batch hb idx hlt) _ (rowPassT embed batch r) hpair ?_
  rw [(rowPassT_proj embed batch r).1]
  exact hid

theorem processBatchStore_map {V : Type} (embed : String → V)
    (incs store : List (Incident V)) :
    processBatchStore embed incs store
      = store.map (fun r => (chunks50 incs).foldl (fun x c => rowPass embed c x) r) := by
  unfold processBatchStore
  generalize chunks50 incs = cs
  induction cs generalizing store with
  | nil => simp
  | cons c cs ih =>
    simp only [List.foldl_cons]
    rw [processSingleBatch_map, ih, List.map_map]
    rfl

theorem chunkFold_proj {V : Type} (embed : String → V) (cs : List (List (Incident V)))
    (r : Incident V) :
    (cs.foldl (fun x c => rowPass embed c x) r).id = r.id
      ∧ (cs.foldl (fun x c => rowPass embed c x) r).title = r.title
      ∧ (cs.foldl (fun x c => rowPass embed c x) r).description = r.description := by
  induction cs generalizing r with
  | nil => exact ⟨rfl, rfl, rfl⟩
  | cons c cs ih =>
    simp only [List.foldl_cons]
    rcases ih (rowPass embed c r) with ⟨h1, h2, h3⟩
    rcases rowPass_proj embed c r with ⟨g1, g2, g3⟩
    exact ⟨h1.trans g1, h2.trans g2, h3.trans g3⟩

theorem chunkFold_monoT {V : Type} (embed : String → V) (cs : List (List (Incident V)))
    (r : Incident V) (hr : r.title_vector.isSome = true) :
    (cs.foldl (fun x c => rowPass embed c x) r).title_vector.isSome = true := by
  induction cs generalizing r with
  | nil => exact hr
  | cons c cs ih =>
    simp only [List.foldl_cons]
    exact ih _ (rowPass_monoT embed c r hr)

theorem chunkFold_monoD {V : Type} (embed : String → V) (cs : List (List (Incident V)))
    (r : Incident V) (hr : r.description_vector.isSome = true) :
    (cs.foldl (fun x c => rowPass embed c x) r).description_vector.isSome = true := by
  induction cs generalizing r with
  | nil => exact hr
  | cons c cs ih =>
    simp only [List.foldl_cons]
    exact ih _ (rowPass_monoD embed c r hr)

theorem ne_empty_of_jsTrim_ne (t : String) (h : jsTrim t ≠ "") : t ≠ "" := by
  intro he
  subst he
  exact h rfl

theorem chunkFold_good {V : Type} (embed : String → V) (store : List (Incident V))
    (hstore : ∀ i ∈ store, (i.title_vector.isNone = true → jsTrim i.title ≠ "")
        ∧ (i.description_vector.isNone = true → jsTrim i.description ≠ ""))
    (r : Incident V) (hr : r ∈ store) :
    ((chunks50 (store.filter needsEmbedding)).foldl
        (fun x c => rowPass embed c x) r).title_vector.isSome = true
      ∧ ((chunks50 (store.filter needsEmbedding)).foldl
        (fun x c => rowPass embed c x) r).description_vector.isSome = true := by
  have hbatchmem : ∀ c ∈ chunks50 (store.filter needsEmbedding), ∀ j ∈ c, j ∈ store := by
    intro c hc j hj
    have hjm : j ∈ (chunks50 (store.filter needsEmbedding)).flatten :=
      List.mem_flatten.mpr ⟨c, hc, hj⟩
    rw [chunks50_join] at hjm
    exact (List.mem_filter.mp hjm).1
  constructor
  · cases hT : r.title_vector with
    | some v => exact chunkFold_monoT embed _ r (by rw [hT]; rfl)
    | none =>
      have hmiss : r ∈ store.filter needsEmbedding := by
        refine List.mem_filter.mpr ⟨hr, ?_⟩
        simp [needsEmbedding, hT]
      have hflat : r ∈ (chunks50 (store.filter needsEmbedding)).flatten := by
        rw [chunks50_join]
        exact hmiss
      rcases List.mem_flatten.mp hflat with ⟨c, hc, hrc⟩
      rcases List.append_of_mem hc with ⟨l1, l2, hsplit⟩
      rw [hsplit, List.foldl_append, List.foldl_cons]
      refine chunkFold_monoT embed l2 _ ?_
      refine rowPass_goodT embed c (List.foldl (fun x c => rowPass embed c x) r l1) r hrc
        ?_ ?_ ?_ ?_
      · intro j hj hjn
        exact (hstore j (hbatchmem c hc j hj)).1 hjn
      · rw [hT]
        rfl
      · exact ne_empty_of_jsTrim_ne _ ((hstore r hr).1 (by rw [hT]; rfl))
      · exact (chunkFold_proj embed l1 r).1.symm
  · cases hD : r.description_vector with
    | some v => exact chunkFold_monoD embed _ r (by rw [hD]; rfl)
    | none =>
      have hmiss : r ∈ store.filter needsEmbedding := by
        refine List.mem_filter.mpr ⟨hr, ?_⟩
        simp [needsEmbedding, hD]
      have hflat : r ∈ (chunks50 (store.filter needsEmbedding)).flatten := by
        rw [chunks50_join]
        exact hmiss
      rcases List.mem_flatten.mp hflat with ⟨c, hc, hrc⟩
      rcases List.append_of_mem hc with ⟨l1, l2, hsplit⟩
      rw [hsplit, List.foldl_append, List.foldl_cons]
      refine chunkFold_monoD embed l2 _ ?_
      refine rowPass_goodD embed c (List.foldl (fun x c => rowPass embed c x) r l1) r hrc
        ?_ ?_ ?_ ?_
      · intro j hj hjn
        exact (hstore j (hbatchmem c hc j hj)).2 hjn
      · rw [hD]
        rfl
      · exact ne_empty_of_jsTrim_ne _ ((hstore r hr).2 (by rw [hD]; rfl))
      · exact (chunkFold_proj embed l1 r).1.symm

/-- C2 (amended): when every record whose title (resp. description) vector is
missing has non-empty text after trimming for that field, one backfill pass
assigns vectors to every selected record, so a second `processAllMissingEmbeddings`
call selects nothing and reports `processed = 0`.  The text condition is
required: records with empty or whitespace-only text for a missing field are
selected by the missing-vector query but never receive a vector (see the
counterexample). -/
theorem processAllMissingEmbeddings_idempotent {V : Type} (embed : String → V)
    (store : List (Incident V))
    (hstore : ∀ i ∈ store, (i.title_vector.isNone = true → jsTrim i.title ≠ "")
        ∧ (i.description_vector.isNone = true → jsTrim i.description ≠ "")) :
    (processAllMissingEmbeddings embed
        ((processAllMissingEmbeddings embed store).1)).2 = 0 := by
  have hstore1 : (processAllMissingEmbeddings embed store).1
      = store.map (fun r => (chunks50 (store.filter needsEmbedding)).foldl
          (fun x c => rowPass embed c x) r) := by
    simp only [processAllMissingEmbeddings]
    exact processBatchStore_map embed (store.filter needsEmbedding) store
  have hnil : ((processAllMissingEmbeddings embed store).1).filter needsEmbedding = [] := by
    rw [hstore1, List.filter_eq_nil_iff]
    intro x hx
    rcases List.mem_map.mp hx with ⟨r, hr, rfl⟩
    rcases chunkFold_good embed store hstore r hr with ⟨hgT, hgD⟩
    intro habs
    rw [needsEmbedding, Bool.or_eq_true] at habs
    rcases habs with habs | habs
    · rw [Option.isNone_iff_eq_none] at habs
      rw [habs] at hgT
      exact Bool.false_ne_true hgT
    · rw [Option.isNone_iff_eq_none] at habs
      rw [habs] at hgD
      exact Bool.false_ne_true hgD
  simp only [processAllMissingEmbeddings] at hnil ⊢
  rw [hnil]
  rfl

theorem processAllMissingEmbeddings_idempotent_witness :
    (∀ i ∈ [(⟨"1", "a", "b", none, none⟩ : Incident Int)],
        (i.title_vector.isNone = true → jsTrim i.title ≠ "")
          ∧ (i.description_vector.isNone = true → jsTrim i.description ≠ ""))
      ∧ (processAllMissingEmbeddings simpleHash
          ((processAllMissingEmbeddings simpleHash
            [(⟨"1", "a", "b", none, none⟩ : Incident Int)]).1)).2 = 0 :=
  ⟨by decide,
   processAllMissingEmbeddings_idempotent simpleHash
     [(⟨"1", "a", "b", none, none⟩ : Incident Int)] (by decide)⟩

/-- C2 (counterexample): a store whose single record has empty title and
description is selected by the missing-vector query (`title_vector IS NULL OR
description_vector IS NULL`) but never receives vectors — the update loops
skip text-less fields — so it is selected and counted again: the second call
reports `processed = 1`, not 0. -/
theorem processAllMissingEmbeddings_not_idempotent_cex :
    ¬ ((processAllMissingEmbeddings simpleHash
          ((processAllMissingEmbeddings simpleHash
            [(⟨"1", "", "", none, none⟩ : Incident Int)]).1)).2 = 0) := by
  have hfilter : [(⟨"1", "", "", none, none⟩ : Incident Int)].filter needsEmbedding
      = [(⟨"1", "", "", none, none⟩ : Incident Int)] := by decide
  have htake : List.take 50 [(⟨"1", "", "", none, none⟩ : Incident Int)]
      = [(⟨"1", "", "", none, none⟩ : Incident Int)] := by decide
  have hdrop : List.drop 50 [(⟨"1", "", "", none, none⟩ : Incident Int)] = [] := by decide
  have hchunks : chunks50 [(⟨"1", "", "", none, none⟩ : Incident Int)]
      = [[(⟨"1", "", "", none, none⟩ : Incident Int)]] := by
    rw [chunks50_cons, htake, hdrop, chunks50_nil]
  have hsingle : processSingleBatch simpleHash
      [(⟨"1", "", "", none, none⟩ : Incident Int)]
      [(⟨"1", "", "", none, none⟩ : Incident Int)]
      = [(⟨"1", "", "", none, none⟩ : Incident Int)] := by decide
  have hfirst : (processAllMissingEmbeddings simpleHash
      [(⟨"1", "", "", none, none⟩ : Incident Int)]).1
      = [(⟨"1", "", "", none, none⟩ : Incident Int)] := by
    simp only [processAllMissingEmbeddings]
    rw [hfilter]
    unfold processBatchStore
    rw [hchunks, List.foldl_cons, List.foldl_nil, hsingle]
  rw [hfirst]
  simp only [processAllMissingEmbeddings]
  rw [hfilter]
  simp
